import Mathlib

/-!
Verification development for the Ayurvedic risk-predictor application
(single source file `app.py`).

The embedding models the four core routines of the program:

* `normalize_dosha` — canonicalization of free-text dosha labels
  (`app.py`, `normalize_dosha`);
* the table loader's derived structures: the sorted deduplicated symptom
  list and the lowercase-to-canonical lookup (`app.py`, `load_data`);
* `compute_risk` / `risk_level_from_score` — the scorer
  (`app.py`, `compute_risk`, `risk_level_from_score`);
* `get_suggestions` — the suggestion matcher (`app.py`, `get_suggestions`).

Python strings are modeled as `String` / `List Char`; string methods
(`strip`, `lower`, `startswith`, substring `in`, `split`) are given
explicit executable definitions on `List Char` mirroring their ASCII
behaviour (all data handled by the program is ASCII-ish; Lean's
`Char.toLower` / `Char.isWhitespace` agree with Python on that range).

Python floats: every weight in the program is an exact decimal
(group weights are integers, dosha weights are halves), so the score
`round(0.6*g + 0.4*d, 2)` is an exact multiple of 1/5 and no binary
floating-point rounding subtlety can affect any comparison in the code.
The scorer is therefore embedded with exact integers: weights are stored
in tenths (7.5 ↦ 75) and the score in hundredths (7.6 ↦ 760).  The
rational-number formula of the specification, including Python's
`round` (round-half-to-even), is recovered exactly by the bridge
function `round2` below.

`pd.isna` / `pd.NA` are modeled with `Option`; `difflib.get_close_matches`
is external library code and is modeled as an opaque list-valued argument
(`cm`) of the suggestion matcher, constrained only where the source
library guarantees it (its results are drawn from the candidate list, and
it raises `ValueError` when asked for `n ≤ 0` results).
-/

/-- Lexicographic comparison of char lists by code point, Python's
string `<=` used by `sorted`. -/
def lexLe : List Char → List Char → Bool
  | [], _ => true
  | _ :: _, [] => false
  | a :: as, b :: bs => if a = b then lexLe as bs else decide (a < b)

/-- Python string order (by code points). -/
def strLe (a b : String) : Bool := lexLe a.data b.data

/-- Python `l.startswith(q)` on char lists: `startsL l q` means `l` starts
with `q`. -/
def startsL : List Char → List Char → Bool
  | _, [] => true
  | [], _ :: _ => false
  | c :: l, d :: q => c = d && startsL l q

/-- Python substring test `q in l` on char lists: `q` occurs contiguously
in `l`. -/
def containsL : List Char → List Char → Bool
  | [], q => q.isEmpty
  | c :: rest, q => startsL (c :: rest) q || containsL rest q

/-- Characters removed by Python `str.strip()` (ASCII fragment). -/
def pyStripDrop (l : List Char) : List Char :=
  ((l.dropWhile Char.isWhitespace).reverse.dropWhile Char.isWhitespace).reverse

/-- Python `str.strip()` on a string. -/
def pyStrip (s : String) : String := String.mk (pyStripDrop s.data)

/-- Python `str.strip().lower()` on a char list (`app.py` line 56 and the
key construction of the symptom lookup). -/
def strTrimLower (l : List Char) : List Char :=
  (pyStripDrop l).map Char.toLower

/-- Python `text.strip().lower()` on a string. -/
def pyStripLower (s : String) : String := String.mk (strTrimLower s.data)

/-! ## Dosha normalization (`normalize_dosha`, app.py lines 53-75) -/

/-- Regex word character `\w` (ASCII fragment): letters, digits, underscore. -/
def wordChar (c : Char) : Bool := c.isAlphanum || c = '_'

/-- Recognizes `dosha` at the head of the list followed by a word
boundary (`dosha\b` of the regex `\btri\s*dosha\b`). -/
def doshaTail : List Char → Bool
  | c1 :: c2 :: c3 :: c4 :: c5 :: rest =>
    c1 = 'd' && c2 = 'o' && c3 = 's' && c4 = 'h' && c5 = 'a' &&
      (match rest with
       | [] => true
       | d :: _ => !wordChar d)
  | _ => false

/-- After the literal `tri`: skip `\s*` (any run of whitespace) and then
require `dosha\b`. -/
def afterTri : List Char → Bool
  | [] => false
  | c :: rest => if c.isWhitespace then afterTri rest else doshaTail (c :: rest)

/-- Recognizes `tri\s*dosha\b` at the head of the list. -/
def triAt : List Char → Bool
  | c1 :: c2 :: c3 :: rest => c1 = 't' && c2 = 'r' && c3 = 'i' && afterTri rest
  | _ => false

/-- Python `re.search(r"\btri\s*dosha\b", s)`: scans every position,
requiring a word boundary before `tri`; `prev` is the character preceding
the current position (`none` at the start of the string). -/
def triSearch : Option Char → List Char → Bool
  | _, [] => false
  | prev, c :: rest =>
    ((match prev with
      | none => true
      | some p => !wordChar p) && triAt (c :: rest))
      || triSearch (some c) rest

/-- The three base dosha tokens and their canonical order
(`ORDER = ["vata", "pitta", "kapha"]` in app.py). -/
def vataL : List Char := ['v', 'a', 't', 'a']

/-- Token `pitta` as a char list. -/
def pittaL : List Char := ['p', 'i', 't', 't', 'a']

/-- Token `kapha` as a char list. -/
def kaphaL : List Char := ['k', 'a', 'p', 'h', 'a']

/-- `ORDER` from app.py, as char lists. -/
def ORDERL : List (List Char) := [vataL, pittaL, kaphaL]

/-- Membership in `ORDER_SET = set(ORDER)`. -/
def baseTok (t : List Char) : Bool := decide (t ∈ ORDERL)

/-- Separator class of the regex `[;,+/]+` in `normalize_dosha`. -/
def pySep (c : Char) : Bool := c = ';' || c = ',' || c = '+' || c = '/'

/-- Python `re.sub(r"[;,+/]+", "|", s)`: each maximal run of separator
characters becomes a single `|`.  A separator character emits `|` exactly
when the following character is not a separator (i.e. at the end of its
run), which yields one `|` per run. -/
def unifySep : List Char → List Char
  | [] => []
  | c :: rest =>
    if pySep c then
      match rest with
      | [] => ['|']
      | d :: _ => if pySep d then unifySep rest else '|' :: unifySep rest
    else c :: unifySep rest

/-- Character class kept by `re.sub(r"[^a-z|]", "", s)`. -/
def keepChar (c : Char) : Bool := (decide ('a' ≤ c) && decide (c ≤ 'z')) || c = '|'

/-- Python `s.split("|")` on char lists. -/
def splitBar : List Char → List (List Char)
  | [] => [[]]
  | c :: rest =>
    let r := splitBar rest
    if c = '|' then [] :: r
    else (c :: r.headD []) :: r.tail

/-- Tridosha short-circuit of `normalize_dosha` (app.py line 59):
`"tridosha" in s or "trisosha" in s or re.search(r"\btri\s*dosha\b", s)`. -/
def triCheck (l : List Char) : Bool :=
  containsL l "tridosha".data || containsL l "trisosha".data || triSearch none l

/-- Lines 62-65 of `normalize_dosha`: unify separators into `|`, delete
spaces (`s.replace(" ", "")`), delete everything outside `[a-z|]`. -/
def cleanup (l : List Char) : List Char :=
  ((unifySep l).filter (fun c => c != ' ')).filter keepChar

/-- Lines 67-68 of `normalize_dosha`: split on `|`, drop empty parts,
keep only parts in `ORDER_SET`. -/
def partsOf (l : List Char) : List (List Char) :=
  ((splitBar (cleanup l)).filter (fun p => !p.isEmpty)).filter (fun p => baseTok p)

/-- Line 72 of `normalize_dosha`:
`present = [d for d in ORDER if d in parts]`. -/
def presentOf (parts : List (List Char)) : List (List Char) :=
  ORDERL.filter (fun d => decide (d ∈ parts))

/-- `normalize_dosha` from app.py (lines 53-75).  `pd.isna`/`pd.NA` are
modeled by `Option`; the input has already been coerced to a string. -/
def normalize_dosha (x : Option String) : Option String :=
  match x with
  | none => none
  | some str =>
    let s := strTrimLower str.data
    if triCheck s then some "tridosha"
    else
      let parts := partsOf s
      if parts.isEmpty then none
      else
        let present := presentOf parts
        if 3 ≤ present.length then some "tridosha"
        else some (String.mk (List.intercalate ['|'] present))

/-! ## Table, lookup and scorer (`load_data`, `resolve_exact`,
`risk_level_from_score`, `compute_risk`; app.py lines 80-156) -/

/-- One row of the loaded table, after `load_data` has coerced the
symptom column to `str` and normalized `Dosha_Clean`.  Field values model
`str(row[...])` results; `doshaClean` keeps the `pd.NA` case as `none`. -/
structure Row where
  symptom : String
  commonGroup : String
  diseaseGroup : String
  doshaClean : Option String
deriving DecidableEq

/-- Insert a string into an ascending list (helper for `sortStr`). -/
def insSorted (s : String) : List String → List String
  | [] => [s]
  | t :: rest => if strLe s t then s :: t :: rest else t :: insSorted s rest

/-- Ascending sort by Python string order.  On duplicate-free input this
agrees with Python's `sorted`. -/
def sortStr : List String → List String
  | [] => []
  | s :: rest => insSorted s (sortStr rest)

/-- `SYMPTOMS = sorted(set(df[symptom_col].tolist()))` from `load_data`
(app.py line 108). -/
def mkSymptoms (tbl : List Row) : List String :=
  sortStr ((tbl.map (fun r => r.symptom)).dedup)

/-- `SYMPTOM_LOOKUP = {s.strip().lower(): s for s in symptoms}` together
with `.get(key)` (app.py lines 109 and 118).  In a Python dict
comprehension a later binding of the same key wins, hence `getLast?`. -/
def SYMPTOM_LOOKUP_get (symptoms : List String) (key : String) : Option String :=
  (symptoms.filter (fun s => pyStripLower s == key)).getLast?

/-- `resolve_exact` from app.py (lines 117-118); `none` models a missing
(`None`) argument, coerced by `(text or "")`. -/
def resolve_exact (symptoms : List String) (text : Option String) : Option String :=
  SYMPTOM_LOOKUP_get symptoms (pyStripLower (text.getD ""))

/-- `disease_group_weight` dict (app.py lines 17-33); values stored in
tenths (all original values are integers 3-9). -/
def disease_group_weight : List (String × Int) :=
  [("Urinary tract infections", 40),
   ("Muscular disorders", 50),
   ("Cardiomyopathies", 70),
   ("Cardiovascular diseases", 90),
   ("Ear diseases", 30),
   ("Eye diseases", 40),
   ("Hematological diseases", 60),
   ("Liver disease", 70),
   ("Mental health / Psychiatric disorders", 60),
   ("Nutritional Deficiency Diseases", 40),
   ("Reproductive system diseases", 50),
   ("Tropical diseases", 60),
   ("Endocrine and Metabolic Diseases", 70),
   ("Cancer and neoplasms", 90),
   ("Zoonotic diseases", 60)]

/-- `dosha_weight` dict (app.py lines 35-43); values in tenths
(7.5 ↦ 75 etc.). -/
def dosha_weight : List (String × Int) :=
  [("vata", 75),
   ("pitta", 80),
   ("kapha", 65),
   ("vata|pitta", 85),
   ("vata|kapha", 70),
   ("pitta|kapha", 80),
   ("tridosha", 95)]

/-- Python `d.get(key, 0.0)` on the weight dicts (keys are unique, so
first match is the dict entry). -/
def dictGet (d : List (String × Int)) (key : String) : Int :=
  (Option.map Prod.snd (d.find? (fun kv => kv.fst == key))).getD 0

/-- `risk_level_from_score` (app.py lines 120-126).  The score argument is
in hundredths, so the boundaries 4 and 7 of the code become 400 and 700. -/
def risk_level_from_score (score100 : Int) : String :=
  if score100 < 400 then "🟢 Low"
  else if score100 < 700 then "🟠 Medium"
  else "🔴 High"

/-- Python's `round` (round half to even) on an exact rational. -/
def roundHalfEven (x : ℚ) : ℤ :=
  let f := ⌊x⌋
  if x - f < 1/2 then f
  else if 1/2 < x - f then f + 1
  else if f % 2 = 0 then f else f + 1

/-- Python `round(x, 2)` on an exact rational. -/
def round2 (x : ℚ) : ℚ := ((roundHalfEven (x * 100) : ℤ) : ℚ) / 100

/-- The successful result record of `compute_risk` (app.py lines 145-156).
`group_weight` and `dosha_weight_v` are in tenths, `risk_score_0_10` in
hundredths of the original float values.  The purely presentational
`formula` string of the Python dict is not modeled. -/
structure RiskResult where
  symptom : String
  common_group : String
  disease_group : String
  dosha_clean : String
  group_weight : Int
  dosha_weight_v : Int
  risk_score_0_10 : Int
  risk_level : String
deriving DecidableEq

/-- Possible outcomes of `compute_risk`: the not-found dict (carrying only
the message), the found dict, or an uncaught `IndexError` from
`.iloc[0]` on an empty selection (`err`). -/
inductive RiskOutcome where
  | notFound (message : String)
  | found (r : RiskResult)
  | err
deriving DecidableEq

/-- The user-facing not-found message (app.py line 131). -/
def NOT_FOUND_MSG : String :=
  "⚠️ Symptom not found. Pick from suggestions or type an exact value from the dataset."

/-- `compute_risk` from app.py (lines 128-156), with the default weights
`W_GROUP = 0.6`, `W_DOSHA = 0.4`.  The score in hundredths is
`6*g_w + 4*d_w` with the weights in tenths, which equals
`round(0.6*g + 0.4*d, 2) * 100` of the Python code (see `round2` bridge
lemmas).  `match`/`if not canon` mirror `SYMPTOM_LOOKUP.get` returning
`None` or an empty string. -/
def compute_risk (tbl : List Row) (symptom_text : Option String) : RiskOutcome :=
  match resolve_exact (mkSymptoms tbl) symptom_text with
  | none => .notFound NOT_FOUND_MSG
  | some canon =>
    if canon = "" then .notFound NOT_FOUND_MSG
    else
      match tbl.find? (fun row => row.symptom == canon) with
      | none => .err
      | some row =>
        let common_group := pyStrip row.commonGroup
        let disease_group := pyStrip row.diseaseGroup
        let dosha_clean := row.doshaClean.getD ""
        let g_w := dictGet disease_group_weight common_group
        let d_w := dictGet dosha_weight dosha_clean
        let score100 := 6 * g_w + 4 * d_w
        .found
          { symptom := canon
            common_group := common_group
            disease_group := disease_group
            dosha_clean := if dosha_clean = "" then "-" else dosha_clean
            group_weight := g_w
            dosha_weight_v := d_w
            risk_score_0_10 := score100
            risk_level := risk_level_from_score score100 }

/-! ## Suggestion matcher (`get_suggestions`, app.py lines 158-172) -/

/-- The accumulation loop of `get_suggestions`: walk the candidates,
append unseen ones, stop as soon as `k <= len(out)` (the Python loop
checks the bound after each iteration, appended or not). -/
def dedupLoop (k : Nat) (out seen : List String) : List String → List String
  | [] => out
  | s :: rest =>
    let dup := seen.contains s
    let out1 := if dup then out else out ++ [s]
    let seen1 := if dup then seen else s :: seen
    if k ≤ out1.length then out1 else dedupLoop k out1 seen1 rest

/-- Prefix-tier predicate of the matcher: `s.lower().startswith(q)`. -/
def isPrefMatch (q s : String) : Bool := startsL (s.data.map Char.toLower) q.data

/-- Substring predicate of the matcher: `q in s.lower()`. -/
def isSubMatch (q s : String) : Bool := containsL (s.data.map Char.toLower) q.data

/-- Tier 1 of `get_suggestions`:
`[s for s in SYMPTOMS if s.lower().startswith(q)]`. -/
def prefList (SY : List String) (q : String) : List String :=
  SY.filter (fun s => isPrefMatch q s)

/-- Tier 2 of `get_suggestions`:
`[s for s in SYMPTOMS if q in s.lower() and s not in prefix]`. -/
def subList (SY : List String) (q : String) : List String :=
  SY.filter (fun s => isSubMatch q s && !((prefList SY q).contains s))

/-- Tier 3 filter of `get_suggestions` applied to the `difflib`
candidates: `[s for s in fuzzy if s not in prefix and s not in substr]`. -/
def fuzList (SY : List String) (q : String) (cands : List String) : List String :=
  cands.filter (fun s => !((prefList SY q).contains s) && !((subList SY q).contains s))

/-- `get_suggestions(query, k)` from app.py.  `SY` models the global
`SYMPTOMS`; `cm q n` models `difflib.get_close_matches(q, SYMPTOMS, n=n,
cutoff=0.6)` (external library code, opaque here — every claim proved
below holds for an arbitrary result list).  `difflib` raises
`ValueError("n must be > 0")` when `n = k*2 ≤ 0`, modeled by `.error`
(the tier lists are computed before that call in the source, but they are
pure, so lifting the error test above them does not change the result). -/
def get_suggestions (SY : List String) (cm : String → Nat → List String)
    (query : Option String) (k : Nat) : Except String (List String) :=
  let q := pyStripLower (query.getD "")
  if q = "" then .ok []
  else if k * 2 = 0 then .error "n must be > 0"
  else .ok (dedupLoop k [] []
    (prefList SY q ++ subList SY q ++ fuzList SY q (cm q (k * 2))))

/-! ## Lemmas about `normalize_dosha` -/

/-- Closed form of `normalize_dosha` on a present value. -/
lemma normalize_some (s : String) :
    normalize_dosha (some s) =
      if triCheck (strTrimLower s.data) then some "tridosha"
      else if (partsOf (strTrimLower s.data)).isEmpty then none
      else if 3 ≤ (presentOf (partsOf (strTrimLower s.data))).length then some "tridosha"
      else some (String.mk
        (List.intercalate ['|'] (presentOf (partsOf (strTrimLower s.data))))) := rfl

/-- `presentOf` unfolded on the three fixed tokens. -/
lemma presentOf_eq (parts : List (List Char)) :
    presentOf parts =
      (if vataL ∈ parts then [vataL] else []) ++
      ((if pittaL ∈ parts then [pittaL] else []) ++
       (if kaphaL ∈ parts then [kaphaL] else [])) := by
  simp only [presentOf, ORDERL, List.filter_cons, List.filter_nil, decide_eq_true_eq]
  split_ifs <;> simp

/-- A token accepted by `baseTok` is one of the three base tokens. -/
lemma baseTok_cases {t : List Char} (h : baseTok t = true) :
    t = vataL ∨ t = pittaL ∨ t = kaphaL := by
  simpa [baseTok, ORDERL] using h

/-- Everything `normalize_dosha` can return: `none` or one of the seven
canonical labels. -/
lemma normalize_dosha_range (x : Option String) :
    normalize_dosha x = none ∨
      normalize_dosha x ∈ ([some "vata", some "pitta", some "kapha",
        some "vata|pitta", some "vata|kapha", some "pitta|kapha",
        some "tridosha"] : List (Option String)) := by
  match x with
  | none => exact Or.inl rfl
  | some s =>
    rcases htri : triCheck (strTrimLower s.data) with _ | _
    case true =>
      right
      simp [normalize_some, htri]
    case false =>
    rcases hemp : (partsOf (strTrimLower s.data)).isEmpty with _ | _
    case true =>
      left
      simp [normalize_some, htri, hemp]
    case false =>
    right
    have hne : partsOf (strTrimLower s.data) ≠ [] := by
      intro h
      rw [h] at hemp
      simp at hemp
    obtain ⟨p, hp⟩ := List.exists_mem_of_ne_nil _ hne
    have hbt : baseTok p = true := List.of_mem_filter hp
    by_cases hv : vataL ∈ partsOf (strTrimLower s.data) <;>
      by_cases hpi : pittaL ∈ partsOf (strTrimLower s.data) <;>
        by_cases hk : kaphaL ∈ partsOf (strTrimLower s.data) <;>
          first
            | (rw [normalize_some]
               simp only [presentOf_eq]
               simp [htri, hemp, hv, hpi, hk]
               all_goals decide)
            | exact absurd hp
                (by rcases baseTok_cases hbt with rfl | rfl | rfl <;> assumption)

/-! ## Claim theorems: normalization -/

/-- C2: for every non-null input string whose case-folded, trimmed form
contains the substring `tridosha`, or the substring `trisosha`, or a
whole-word occurrence of `tri` followed by optional whitespace and
`dosha`, `normalize_dosha` returns `tridosha`, regardless of any other
content in the string. -/
theorem c2_tridosha_dominates (s : String)
    (h : containsL (strTrimLower s.data) "tridosha".data = true ∨
         containsL (strTrimLower s.data) "trisosha".data = true ∨
         triSearch none (strTrimLower s.data) = true) :
    normalize_dosha (some s) = some "tridosha" := by
  have ht : triCheck (strTrimLower s.data) = true := by
    unfold triCheck
    rcases h with h | h | h <;> simp [h]
  simp [normalize_some, ht]

/-- Witness for C2 at a concrete input: the whole-word `tri dosha`
pattern fires and dominates the other content of the string. -/
theorem c2_tridosha_dominates_witness :
    triSearch none (strTrimLower ("Mostly Tri  Dosha (vata excess)").data) = true ∧
    normalize_dosha (some "Mostly Tri  Dosha (vata excess)") = some "tridosha" :=
  ⟨by decide, c2_tridosha_dominates _ (Or.inr (Or.inr (by decide)))⟩

/-- C4: `normalize_dosha` is idempotent — feeding the output back into it
yields the same value, including the absent case. -/
theorem c4_normalize_idempotent (x : Option String) :
    normalize_dosha (normalize_dosha x) = normalize_dosha x := by
  rcases normalize_dosha_range x with h | h
  · rw [h]
    rfl
  · simp only [List.mem_cons, List.not_mem_nil, or_false] at h
    rcases h with h | h | h | h | h | h | h <;> rw [h] <;> decide

/-- C5: every value `normalize_dosha` returns is either absent or one of
the seven canonical labels; inputs with nothing recognizable (such as
`"unknown"`, the empty string, or null) map to absent; the function is
total (never raises). -/
theorem c5_normalize_range :
    (∀ x : Option String, normalize_dosha x = none ∨
      normalize_dosha x ∈ ([some "vata", some "pitta", some "kapha",
        some "vata|pitta", some "vata|kapha", some "pitta|kapha",
        some "tridosha"] : List (Option String))) ∧
    normalize_dosha (some "unknown") = none ∧
    normalize_dosha (some "") = none ∧
    normalize_dosha none = none :=
  ⟨normalize_dosha_range, by decide, by decide, rfl⟩

/-! ## Lemmas about the symptom list, lookup and scorer -/

/-- Membership in an insertion step of the sort. -/
lemma mem_insSorted {a s : String} {l : List String} :
    a ∈ insSorted s l ↔ a = s ∨ a ∈ l := by
  induction l with
  | nil => simp [insSorted]
  | cons t rest ih =>
    simp only [insSorted]
    split
    · simp
    · simp only [List.mem_cons, ih]
      tauto

/-- Sorting does not change membership. -/
lemma mem_sortStr {a : String} {l : List String} : a ∈ sortStr l ↔ a ∈ l := by
  induction l with
  | nil => simp [sortStr]
  | cons s rest ih => simp [sortStr, mem_insSorted, ih]

/-- `SYMPTOMS` holds exactly the strings of the symptom column. -/
lemma mem_mkSymptoms {a : String} {tbl : List Row} :
    a ∈ mkSymptoms tbl ↔ a ∈ tbl.map (fun r => r.symptom) := by
  simp [mkSymptoms, mem_sortStr, List.mem_dedup]

/-- A canonical value returned by the lookup occurs in the symptom
column of the table it was built from. -/
lemma resolve_exact_mem {tbl : List Row} {text : Option String} {c : String}
    (h : resolve_exact (mkSymptoms tbl) text = some c) :
    c ∈ tbl.map (fun r => r.symptom) := by
  unfold resolve_exact SYMPTOM_LOOKUP_get at h
  have hmem : c ∈ (mkSymptoms tbl).filter
      (fun s => pyStripLower s == pyStripLower (text.getD "")) := by
    obtain ⟨hne, rfl⟩ := List.mem_getLast?_eq_getLast (Option.mem_def.mpr h)
    exact List.getLast_mem hne
  have hm2 := List.mem_of_mem_filter hmem
  rwa [mem_mkSymptoms] at hm2

/-! ## Claim theorems: scorer safety and error handling -/

/-- C9: for every table and every input, the scorer terminates without
raising — resolution either fails (not-found result) or yields a
canonical symptom that occurs in the symptom column, so the row selection
is non-empty, `.iloc[0]` is in range, and a found result is returned. -/
theorem c9_scorer_total (tbl : List Row) (text : Option String) :
    (∃ r, compute_risk tbl text = RiskOutcome.found r) ∨
    (∃ m, compute_risk tbl text = RiskOutcome.notFound m) := by
  unfold compute_risk
  split
  · exact Or.inr ⟨_, rfl⟩
  · rename_i canon hres
    split
    · exact Or.inr ⟨_, rfl⟩
    · split
      · rename_i hfind
        exfalso
        have hm := resolve_exact_mem hres
        rw [List.mem_map] at hm
        obtain ⟨row, hrow, hsym⟩ := hm
        rw [List.find?_eq_none] at hfind
        exact hfind row hrow (by simp [hsym])
      · exact Or.inl ⟨_, rfl⟩

/-- C10: on a table whose symptoms do not strip to the empty string, a
null, empty, or whitespace-only input is coerced to the empty key,
resolution fails, and the not-found result is returned (no exception). -/
theorem c10_blank_input (tbl : List Row) (text : Option String)
    (hclean : ∀ row ∈ tbl, pyStripLower row.symptom ≠ "")
    (htext : text = none ∨ pyStripLower (text.getD "") = "") :
    compute_risk tbl text = RiskOutcome.notFound NOT_FOUND_MSG := by
  have hkey : pyStripLower (text.getD "") = "" := by
    rcases htext with rfl | h
    · rfl
    · exact h
  have hres : resolve_exact (mkSymptoms tbl) text = none := by
    unfold resolve_exact SYMPTOM_LOOKUP_get
    rw [hkey]
    have hfil : (mkSymptoms tbl).filter (fun s => pyStripLower s == "") = [] := by
      rw [List.filter_eq_nil_iff]
      intro s hs
      have hm : s ∈ tbl.map (fun r => r.symptom) := mem_mkSymptoms.mp hs
      rw [List.mem_map] at hm
      obtain ⟨row, hrow, rfl⟩ := hm
      simpa using hclean row hrow
    rw [hfil]
    rfl
  unfold compute_risk
  rw [hres]

/-- Witness for C10 at a concrete table and a whitespace-only input. -/
theorem c10_blank_input_witness :
    (∀ row ∈ [Row.mk "Chest pain" "Cardiomyopathies" "Hrd" (some "vata|pitta")],
        pyStripLower row.symptom ≠ "") ∧
    compute_risk [Row.mk "Chest pain" "Cardiomyopathies" "Hrd" (some "vata|pitta")]
        (some "   ") = RiskOutcome.notFound NOT_FOUND_MSG :=
  ⟨by decide,
   c10_blank_input _ _ (by decide) (Or.inr (by decide))⟩

/-- C8: resolution failure (the case-folded, trimmed input is not a key
of the lookup) yields the not-found result carrying exactly the
user-facing message and nothing else; and it is the only error condition:
whenever resolution yields a non-empty canonical entry the scorer returns
a found result — an unmatched disease-group or dosha weight never
produces an error (`dictGet` silently defaults to `0`). -/
theorem c8_notfound_only_error (tbl : List Row) (text : Option String) :
    (SYMPTOM_LOOKUP_get (mkSymptoms tbl) (pyStripLower (text.getD "")) = none →
      compute_risk tbl text = RiskOutcome.notFound NOT_FOUND_MSG) ∧
    (∀ canon, SYMPTOM_LOOKUP_get (mkSymptoms tbl) (pyStripLower (text.getD "")) = some canon →
      canon ≠ "" → ∃ r, compute_risk tbl text = RiskOutcome.found r) := by
  constructor
  · intro h
    unfold compute_risk
    rw [show resolve_exact (mkSymptoms tbl) text = none from h]
  · intro canon hres hne
    have hres' : resolve_exact (mkSymptoms tbl) text = some canon := hres
    have hm := resolve_exact_mem hres'
    rw [List.mem_map] at hm
    obtain ⟨row, hrow, hsym⟩ := hm
    unfold compute_risk
    split
    · rename_i heq
      rw [heq] at hres'
      cases hres'
    · rename_i canon2 heq
      rw [heq] at hres'
      injection hres' with hcc
      subst hcc
      rw [if_neg hne]
      rcases hfs : tbl.find? (fun row => row.symptom == canon2) with _ | row2
      · exfalso
        rw [List.find?_eq_none] at hfs
        exact hfs row hrow (by simp [hsym])
      · rw [hfs]
        exact ⟨_, rfl⟩

/-- Witness for C8: an unresolvable input gives exactly the not-found
message; a resolvable one gives a found result even though its
disease-group is not a key of the weight table (silent default 0). -/
theorem c8_notfound_only_error_witness :
    (SYMPTOM_LOOKUP_get
        (mkSymptoms [Row.mk "Chest pain" "NotAGroup" "Hrd" none])
        (pyStripLower "Nonexistent symptom text") = none ∧
      compute_risk [Row.mk "Chest pain" "NotAGroup" "Hrd" none]
        (some "Nonexistent symptom text") = RiskOutcome.notFound NOT_FOUND_MSG) ∧
    (SYMPTOM_LOOKUP_get
        (mkSymptoms [Row.mk "Chest pain" "NotAGroup" "Hrd" none])
        (pyStripLower "chest PAIN") = some "Chest pain" ∧
      ∃ r, compute_risk [Row.mk "Chest pain" "NotAGroup" "Hrd" none]
        (some "chest PAIN") = RiskOutcome.found r) :=
  ⟨⟨by decide,
    (c8_notfound_only_error [Row.mk "Chest pain" "NotAGroup" "Hrd" none]
      (some "Nonexistent symptom text")).1 (by decide)⟩,
   ⟨by decide,
    (c8_notfound_only_error [Row.mk "Chest pain" "NotAGroup" "Hrd" none]
      (some "chest PAIN")).2 "Chest pain" (by decide) (by decide)⟩⟩

/-! ## Claim C1: score formula and tier boundaries -/

/-- Rounding an exact multiple of 1/100 to two decimals is the identity
(in particular Python's two-decimal `round` never changes the program's
scores, which are multiples of 1/5). -/
lemma round2_int_hundredths (n : ℤ) : round2 ((n : ℚ) / 100) = (n : ℚ) / 100 := by
  have h1 : ((n : ℚ) / 100) * 100 = (n : ℚ) := by
    field_simp
  unfold round2 roundHalfEven
  rw [h1, Int.floor_intCast]
  norm_num

/-- The integer-hundredths score of the embedding equals the
specification's formula `round(0.6*g + 0.4*d, 2)` with the weights read
in tenths. -/
lemma score_formula_bridge (g d : ℤ) :
    ((6 * g + 4 * d : ℤ) : ℚ) / 100 =
      round2 ((6 : ℚ)/10 * ((g : ℚ)/10) + (4 : ℚ)/10 * ((d : ℚ)/10)) := by
  have h : (6 : ℚ)/10 * ((g : ℚ)/10) + (4 : ℚ)/10 * ((d : ℚ)/10) =
      ((6 * g + 4 * d : ℤ) : ℚ) / 100 := by
    push_cast
    ring
  rw [h, round2_int_hundredths]

/-- The tier function in hundredths agrees with the specification's
comparison of the 0-10 score against 4 and 7. -/
lemma risk_level_spec (s : ℤ) :
    risk_level_from_score s =
      if ((s : ℚ)/100) < 4 then "🟢 Low"
      else if ((s : ℚ)/100) < 7 then "🟠 Medium"
      else "🔴 High" := by
  have h4 : ((s : ℚ)/100 < 4) ↔ s < 400 := by
    rw [div_lt_iff₀ (by norm_num : (0:ℚ) < 100)]
    constructor
    · intro h
      exact_mod_cast h
    · intro h
      exact_mod_cast h
  have h7 : ((s : ℚ)/100 < 7) ↔ s < 700 := by
    rw [div_lt_iff₀ (by norm_num : (0:ℚ) < 100)]
    constructor
    · intro h
      exact_mod_cast h
    · intro h
      exact_mod_cast h
  unfold risk_level_from_score
  by_cases hA : s < 400
  · rw [if_pos hA, if_pos (h4.mpr hA)]
  · rw [if_neg hA, if_neg (fun hq => hA (h4.mp hq))]
    by_cases hB : s < 700
    · rw [if_pos hB, if_pos (h7.mpr hB)]
    · rw [if_neg hB, if_neg (fun hq => hB (h7.mp hq))]

/-- Inversion of a successful `compute_risk` call. -/
lemma compute_risk_found {tbl : List Row} {text : Option String} {r : RiskResult}
    (h : compute_risk tbl text = RiskOutcome.found r) :
    ∃ canon row, resolve_exact (mkSymptoms tbl) text = some canon ∧ canon ≠ "" ∧
      tbl.find? (fun row => row.symptom == canon) = some row ∧
      r = { symptom := canon
            common_group := pyStrip row.commonGroup
            disease_group := pyStrip row.diseaseGroup
            dosha_clean := if row.doshaClean.getD "" = "" then "-" else row.doshaClean.getD ""
            group_weight := dictGet disease_group_weight (pyStrip row.commonGroup)
            dosha_weight_v := dictGet dosha_weight (row.doshaClean.getD "")
            risk_score_0_10 := 6 * dictGet disease_group_weight (pyStrip row.commonGroup) +
              4 * dictGet dosha_weight (row.doshaClean.getD "")
            risk_level := risk_level_from_score
              (6 * dictGet disease_group_weight (pyStrip row.commonGroup) +
               4 * dictGet dosha_weight (row.doshaClean.getD "")) } := by
  unfold compute_risk at h
  split at h
  · cases h
  · rename_i canon heq
    split at h
    · cases h
    · rename_i hne
      split at h
      · cases h
      · rename_i row hfs
        injection h with hr
        exact ⟨canon, row, heq, hne, hfs, hr.symm⟩

/-- C1: for every input that resolves, the found result's score is
exactly `round(0.6*groupWeight + 0.4*doshaWeight, 2)` where the weights
are the weight-table entries of the matched row's fields (0 when the
field is not a key), and the tier label follows the fixed boundaries:
`< 4` Low, `4 ≤ _ < 7` Medium, `≥ 7` High — in particular a score of
exactly 4.0 (400 in hundredths) is Medium and exactly 7.0 is High.
Weights are in tenths and scores in hundredths of the Python floats. -/
theorem c1_score_formula_and_tiers (tbl : List Row) (text : Option String) (r : RiskResult)
    (h : compute_risk tbl text = RiskOutcome.found r) :
    (∃ row, tbl.find? (fun row => row.symptom == r.symptom) = some row ∧
       r.group_weight = dictGet disease_group_weight (pyStrip row.commonGroup) ∧
       r.dosha_weight_v = dictGet dosha_weight (row.doshaClean.getD "")) ∧
    ((r.risk_score_0_10 : ℚ) / 100 =
      round2 ((6 : ℚ)/10 * ((r.group_weight : ℚ)/10) +
              (4 : ℚ)/10 * ((r.dosha_weight_v : ℚ)/10))) ∧
    r.risk_level = risk_level_from_score r.risk_score_0_10 ∧
    (∀ s : ℤ, risk_level_from_score s =
       if ((s : ℚ)/100) < 4 then "🟢 Low"
       else if ((s : ℚ)/100) < 7 then "🟠 Medium"
       else "🔴 High") ∧
    risk_level_from_score 400 = "🟠 Medium" ∧
    risk_level_from_score 700 = "🔴 High" := by
  obtain ⟨canon, row, hres, hne, hfs, hr⟩ := compute_risk_found h
  subst hr
  refine ⟨⟨row, hfs, rfl, rfl⟩, ?_, rfl, risk_level_spec, by decide, by decide⟩
  exact score_formula_bridge _ _

/-- Witness for C1 on a concrete one-row table: group weight 7.0,
dosha weight 8.5, score `round(0.6*7 + 0.4*8.5, 2) = 7.6` (760 in
hundredths), tier High. -/
theorem c1_score_formula_and_tiers_witness :
    compute_risk [Row.mk "Chest pain" "Cardiomyopathies" "Hrd" (some "vata|pitta")]
        (some " chest PAIN ") =
      RiskOutcome.found
        { symptom := "Chest pain", common_group := "Cardiomyopathies",
          disease_group := "Hrd", dosha_clean := "vata|pitta",
          group_weight := 70, dosha_weight_v := 85,
          risk_score_0_10 := 760, risk_level := "🔴 High" } ∧
    ((760 : ℚ) / 100 =
      round2 ((6 : ℚ)/10 * ((70 : ℚ)/10) + (4 : ℚ)/10 * ((85 : ℚ)/10))) :=
  ⟨by decide,
   by
    have hmain := c1_score_formula_and_tiers
      [Row.mk "Chest pain" "Cardiomyopathies" "Hrd" (some "vata|pitta")]
      (some " chest PAIN ")
      { symptom := "Chest pain", common_group := "Cardiomyopathies",
        disease_group := "Hrd", dosha_clean := "vata|pitta",
        group_weight := 70, dosha_weight_v := 85,
        risk_score_0_10 := 760, risk_level := "🔴 High" }
      (by decide)
    have h2 := hmain.2.1
    norm_num at h2 ⊢
    exact h2⟩

/-! ## Lemmas about the suggestion matcher -/

/-- `List.contains` agrees with membership for strings. -/
lemma contains_iff_mem {s : String} {l : List String} : l.contains s = true ↔ s ∈ l := by
  simp [List.contains_iff_exists_mem_beq, beq_iff_eq, eq_comm]

/-- The accumulation loop never exceeds the bound once below it. -/
lemma dedupLoop_length (l : List String) : ∀ (k : Nat) (out seen : List String),
    out.length < k → (dedupLoop k out seen l).length ≤ k := by
  induction l with
  | nil =>
    intro k out seen h
    simpa [dedupLoop] using Nat.le_of_lt h
  | cons s rest ih =>
    intro k out seen h
    by_cases hdup : seen.contains s = true
    · simp only [dedupLoop, hdup, if_true]
      rw [if_neg (Nat.not_le.mpr h)]
      exact ih k out seen h
    · simp only [dedupLoop, hdup, if_false, Bool.false_eq_true]
      by_cases hk : k ≤ (out ++ [s]).length
      · rw [if_pos hk]
        simp only [List.length_append, List.length_singleton]
        omega
      · rw [if_neg hk]
        exact ih k _ _ (Nat.not_le.mp hk)

/-- The accumulation loop preserves freedom from duplicates (the `seen`
set contains everything already in `out`). -/
lemma dedupLoop_nodup (l : List String) : ∀ (k : Nat) (out seen : List String),
    out.Nodup → (∀ x, x ∈ out → x ∈ seen) → (dedupLoop k out seen l).Nodup := by
  induction l with
  | nil =>
    intro k out seen hnd _
    simpa [dedupLoop] using hnd
  | cons s rest ih =>
    intro k out seen hnd hinv
    by_cases hdup : seen.contains s = true
    · simp only [dedupLoop, hdup, if_true]
      split
      · exact hnd
      · exact ih k out seen hnd hinv
    · simp only [dedupLoop, hdup, if_false, Bool.false_eq_true]
      have hs : s ∉ out := fun hmem =>
        hdup (contains_iff_mem.mpr (hinv s hmem))
      have hnd' : (out ++ [s]).Nodup := by
        simp [List.nodup_append, hnd, hs]
      split
      · exact hnd'
      · refine ih k _ _ hnd' ?_
        intro x hx
        rcases List.mem_append.mp hx with hx | hx
        · exact List.mem_cons_of_mem _ (hinv x hx)
        · simp only [List.mem_singleton] at hx
          subst hx
          exact List.mem_cons_self _ _

/-- The accumulation loop appends (a duplicate-free selection of) the
candidates to `out` in candidate order. -/
lemma dedupLoop_split (l : List String) : ∀ (k : Nat) (out seen : List String),
    ∃ add, dedupLoop k out seen l = out ++ add ∧ add.Sublist l := by
  induction l with
  | nil =>
    intro k out seen
    exact ⟨[], by simp [dedupLoop], List.nil_sublist _⟩
  | cons s rest ih =>
    intro k out seen
    by_cases hdup : seen.contains s = true
    · simp only [dedupLoop, hdup, if_true]
      split
      · exact ⟨[], by simp, List.nil_sublist _⟩
      · obtain ⟨add, heq, hsub⟩ := ih k out seen
        exact ⟨add, heq, hsub.trans (List.sublist_cons_self _ _)⟩
    · simp only [dedupLoop, hdup, if_false, Bool.false_eq_true]
      split
      · exact ⟨[s], rfl, (List.nil_sublist rest).cons₂ s⟩
      · obtain ⟨add, heq, hsub⟩ := ih k (out ++ [s]) (s :: seen)
        refine ⟨s :: add, ?_, hsub.cons₂ s⟩
        rw [heq, List.append_assoc]
        rfl

/-- Closed form of `get_suggestions`. -/
lemma get_suggestions_eq (SY : List String) (cm : String → Nat → List String)
    (query : Option String) (k : Nat) :
    get_suggestions SY cm query k =
      if pyStripLower (query.getD "") = "" then Except.ok []
      else if k * 2 = 0 then Except.error "n must be > 0"
      else Except.ok (dedupLoop k [] []
        (prefList SY (pyStripLower (query.getD "")) ++
         subList SY (pyStripLower (query.getD "")) ++
         fuzList SY (pyStripLower (query.getD ""))
           (cm (pyStripLower (query.getD "")) (k * 2)))) := rfl

/-- C7 (amended): for every query and every limit of at least one, a
successful suggestion list has length at most the limit and no
duplicates; a blank (empty or whitespace-only, or missing) query yields
the empty list for every limit.  (At limit 0 the code raises instead of
returning a list — see the counterexample.) -/
theorem c7_suggest_contract (SY : List String) (cm : String → Nat → List String)
    (query : Option String) (k : Nat) :
    (∀ out, 1 ≤ k → get_suggestions SY cm query k = Except.ok out →
      out.length ≤ k ∧ out.Nodup) ∧
    (pyStripLower (query.getD "") = "" →
      get_suggestions SY cm query k = Except.ok []) := by
  constructor
  · intro out hk hok
    rw [get_suggestions_eq] at hok
    by_cases hq : pyStripLower (query.getD "") = ""
    · rw [if_pos hq] at hok
      injection hok with h
      subst h
      exact ⟨by simp, List.nodup_nil⟩
    · rw [if_neg hq] at hok
      rw [if_neg (by omega : ¬ k * 2 = 0)] at hok
      injection hok with h
      subst h
      refine ⟨dedupLoop_length _ k [] [] (by simpa using hk), ?_⟩
      exact dedupLoop_nodup _ k [] [] List.nodup_nil (by simp)
  · intro hq
    rw [get_suggestions_eq, if_pos hq]

/-- C7 counterexample: at limit 0 (with a non-blank query) the matcher
does not return a sequence at all — `difflib.get_close_matches` is called
with `n = 0` and raises `ValueError`, so the claim's bound
`length ≤ limit` fails for limit 0. -/
theorem c7_limit_zero_counterexample :
    get_suggestions ["Cardiac pain"] (fun _ _ => []) (some "card") 0 =
      Except.error "n must be > 0" := rfl

/-- Witness for C7 at concrete inputs: a successful call at limit 12 is
within the bound and duplicate-free, and a whitespace-only query yields
the empty list. -/
theorem c7_suggest_contract_witness :
    ((["Cardiac pain", "Scarring"] : List String).length ≤ 12 ∧
      (["Cardiac pain", "Scarring"] : List String).Nodup) ∧
    get_suggestions ["Cardiac pain"] (fun _ _ => []) (some "  ") 7 = Except.ok [] :=
  ⟨(c7_suggest_contract ["Cardiac pain", "Scarring"] (fun _ _ => []) (some "car") 12).1
     ["Cardiac pain", "Scarring"] (by norm_num) rfl,
   (c7_suggest_contract ["Cardiac pain"] (fun _ _ => []) (some "  ") 7).2 (by decide)⟩

/-- Members of tier 1 are prefix matches. -/
lemma pref_of_mem_prefList {SY : List String} {q s : String}
    (h : s ∈ prefList SY q) : isPrefMatch q s = true :=
  List.of_mem_filter h

/-- A prefix-matching table entry is in tier 1. -/
lemma mem_prefList {SY : List String} {q s : String} (hSY : s ∈ SY)
    (hp : isPrefMatch q s = true) : s ∈ prefList SY q :=
  List.mem_filter.mpr ⟨hSY, hp⟩

/-- Members of tier 2 are not prefix matches. -/
lemma not_pref_of_mem_subList {SY : List String} {q s : String}
    (h : s ∈ subList SY q) : isPrefMatch q s = false := by
  have hSY : s ∈ SY := List.mem_of_mem_filter h
  have hcond := List.of_mem_filter h
  cases hb : isPrefMatch q s with
  | false => rfl
  | true =>
    exfalso
    have hin : (prefList SY q).contains s = true :=
      contains_iff_mem.mpr (mem_prefList hSY hb)
    rw [Bool.and_eq_true, hin] at hcond
    simp at hcond

/-- Members of the filtered fuzzy tier are not prefix matches, provided
the fuzzy candidates come from the table (which `difflib` guarantees). -/
lemma not_pref_of_mem_fuzList {SY : List String} {q : String} {cands : List String}
    {s : String} (hc : ∀ x ∈ cands, x ∈ SY)
    (h : s ∈ fuzList SY q cands) : isPrefMatch q s = false := by
  have hSY : s ∈ SY := hc s (List.mem_of_mem_filter h)
  have hcond := List.of_mem_filter h
  cases hb : isPrefMatch q s with
  | false => rfl
  | true =>
    exfalso
    have hin : (prefList SY q).contains s = true :=
      contains_iff_mem.mpr (mem_prefList hSY hb)
    rw [Bool.and_eq_true, hin] at hcond
    simp at hcond

/-- The lexicographic order is reflexive. -/
lemma lexLe_refl (l : List Char) : lexLe l l = true := by
  induction l with
  | nil => rfl
  | cons c rest ih => simp [lexLe, ih]

/-- The string order is reflexive. -/
lemma strLe_refl (s : String) : strLe s s = true := lexLe_refl _

/-- C6 (amended): in any successful suggestion list, every prefix match
is ranked before every symptom that only contains the query as a
substring elsewhere, and within the prefix tier the symptoms keep the
table's sorted order; the concrete instance uses query `car` (for the
original query `card`, `Scarring` is not a substring match and is not
returned — see the counterexample).  The hypotheses record what the
source guarantees: `SYMPTOMS` is sorted and `difflib` only returns
candidates drawn from it. -/
theorem c6_prefix_before_substring (SY : List String)
    (cm : String → Nat → List String) (query : Option String) (k : Nat)
    (out : List String)
    (hsort : List.Pairwise (fun a b => strLe a b = true) SY)
    (hcm : ∀ x ∈ cm (pyStripLower (query.getD "")) (k * 2), x ∈ SY)
    (hok : get_suggestions SY cm query k = Except.ok out) :
    ((∀ i j (hi : i < out.length) (hj : j < out.length),
       isPrefMatch (pyStripLower (query.getD "")) (out.get ⟨i, hi⟩) = true →
       isSubMatch (pyStripLower (query.getD "")) (out.get ⟨j, hj⟩) = true ∧
         isPrefMatch (pyStripLower (query.getD "")) (out.get ⟨j, hj⟩) = false →
       i < j) ∧
     (∀ i j (hi : i < out.length) (hj : j < out.length), i ≤ j →
       isPrefMatch (pyStripLower (query.getD "")) (out.get ⟨i, hi⟩) = true →
       isPrefMatch (pyStripLower (query.getD "")) (out.get ⟨j, hj⟩) = true →
       strLe (out.get ⟨i, hi⟩) (out.get ⟨j, hj⟩) = true)) ∧
    get_suggestions ["Cardiac pain", "Scarring"] (fun _ _ => []) (some "car") 12 =
      Except.ok ["Cardiac pain", "Scarring"] := by
  refine ⟨?_, rfl⟩
  rw [get_suggestions_eq] at hok
  by_cases hq : pyStripLower (query.getD "") = ""
  · rw [if_pos hq] at hok
    injection hok with h
    subst h
    constructor
    · intro i j hi
      simp at hi
    · intro i j hi
      simp at hi
  · rw [if_neg hq] at hok
    by_cases hk2 : k * 2 = 0
    · rw [if_pos hk2] at hok
      cases hok
    · rw [if_neg hk2] at hok
      injection hok with h
      obtain ⟨add, heq, hsub⟩ :=
        dedupLoop_split
          (prefList SY (pyStripLower (query.getD "")) ++
           subList SY (pyStripLower (query.getD "")) ++
           fuzList SY (pyStripLower (query.getD ""))
             (cm (pyStripLower (query.getD "")) (k * 2))) k [] []
      have hout0 : out = add := by
        rw [← h, heq, List.nil_append]
      rw [List.append_assoc] at hsub
      obtain ⟨o1, o23, hadd, h1, h23⟩ := List.sublist_append_iff.mp hsub
      have hout : out = o1 ++ o23 := by rw [hout0, hadd]
      subst hout
      have hPmem : ∀ x ∈ o1, isPrefMatch (pyStripLower (query.getD "")) x = true :=
        fun x hx => pref_of_mem_prefList (h1.subset hx)
      have hNP : ∀ x ∈ o23, isPrefMatch (pyStripLower (query.getD "")) x = false := by
        intro x hx
        rcases List.mem_append.mp (h23.subset hx) with hx' | hx'
        · exact not_pref_of_mem_subList hx'
        · exact not_pref_of_mem_fuzList hcm hx'
      constructor
      · intro i j hi hj hA hB
        have hiL : i < o1.length := by
          by_contra hge
          push_neg at hge
          have hmem : (o1 ++ o23).get ⟨i, hi⟩ ∈ o23 := by
            rw [List.get_eq_getElem, List.getElem_append_right hge]
            exact List.getElem_mem _
          rw [hNP _ hmem] at hA
          cases hA
        have hjge : o1.length ≤ j := by
          by_contra hlt
          push_neg at hlt
          have hmem : (o1 ++ o23).get ⟨j, hj⟩ ∈ o1 := by
            rw [List.get_eq_getElem, List.getElem_append_left hlt]
            exact List.getElem_mem _
          rw [hPmem _ hmem] at hB
          simp at hB
        omega
      · intro i j hi hj hij hA hB
        have hiL : i < o1.length := by
          by_contra hge
          push_neg at hge
          have hmem : (o1 ++ o23).get ⟨i, hi⟩ ∈ o23 := by
            rw [List.get_eq_getElem, List.getElem_append_right hge]
            exact List.getElem_mem _
          rw [hNP _ hmem] at hA
          cases hA
        have hjL : j < o1.length := by
          by_contra hge
          push_neg at hge
          have hmem : (o1 ++ o23).get ⟨j, hj⟩ ∈ o23 := by
            rw [List.get_eq_getElem, List.getElem_append_right hge]
            exact List.getElem_mem _
          rw [hNP _ hmem] at hB
          cases hB
        have hgi : (o1 ++ o23).get ⟨i, hi⟩ = o1.get ⟨i, hiL⟩ := by
          rw [List.get_eq_getElem, List.get_eq_getElem, List.getElem_append_left hiL]
        have hgj : (o1 ++ o23).get ⟨j, hj⟩ = o1.get ⟨j, hjL⟩ := by
          rw [List.get_eq_getElem, List.get_eq_getElem, List.getElem_append_left hjL]
        rw [hgi, hgj]
        rcases Nat.eq_or_lt_of_le hij with rfl | hlt
        · have : o1.get ⟨i, hiL⟩ = o1.get ⟨i, hjL⟩ := rfl
          rw [this]
          exact strLe_refl _
        · have hpw : List.Pairwise (fun a b => strLe a b = true) o1 :=
            (hsort.filter _).sublist h1
          rw [List.pairwise_iff_get] at hpw
          exact hpw ⟨i, hiL⟩ ⟨j, hjL⟩ hlt

/-- C6 counterexample: for the claim's own instance — query `card` on a
table containing `Cardiac pain` and `Scarring` — the string `card` is not
a substring of `scarring` (there is no `d`), and the fuzzy tier cannot
return it either (`difflib` similarity of `card` with both entries is
0.375 and 0.5, below the 0.6 cutoff, so its result is the empty list,
which is the modeled candidate list here).  The output therefore omits
`Scarring` entirely instead of ranking it after `Cardiac pain`. -/
theorem c6_card_counterexample :
    isSubMatch (pyStripLower "card") "Scarring" = false ∧
    get_suggestions ["Cardiac pain", "Scarring"] (fun _ _ => []) (some "card") 12 =
      Except.ok ["Cardiac pain"] :=
  ⟨rfl, rfl⟩

/-- Witness for C6: on the concrete sorted table with query `car`,
`Cardiac pain` (prefix match, index 0) is ranked before `Scarring`
(substring-only match, index 1). -/
theorem c6_prefix_before_substring_witness :
    (List.Pairwise (fun a b => strLe a b = true) ["Cardiac pain", "Scarring"] ∧
     get_suggestions ["Cardiac pain", "Scarring"] (fun _ _ => []) (some "car") 12 =
       Except.ok ["Cardiac pain", "Scarring"]) ∧
    (0 : Nat) < 1 :=
  ⟨⟨by decide, rfl⟩,
   (c6_prefix_before_substring ["Cardiac pain", "Scarring"] (fun _ _ => [])
       (some "car") 12 ["Cardiac pain", "Scarring"]
       (by decide) (by simp) rfl).1.1 0 1 (by decide) (by decide)
       (by decide) (by decide)⟩

/-! ## Claim C3: separator-and-token strings -/

/-- Separator characters in the sense of the specification: the four
characters unified by the regex, plus `|` itself (which the split step
treats as a separator directly). -/
def gSep (c : Char) : Bool := pySep c || c = '|'

/-- Filler characters allowed around and between tokens: separators and
whitespace. -/
def fillerC (c : Char) : Bool := gSep c || c.isWhitespace

/-- A chain of base tokens: each token is followed by filler, and between
two consecutive tokens the filler contains at least one separator
character.  `Chain l ts` states that `l` is such a chain carrying the
token list `ts` in order. -/
inductive Chain : List Char → List (List Char) → Prop where
  | one : ∀ t f, baseTok t = true → (∀ c ∈ f, fillerC c = true) →
      Chain (t ++ f) [t]
  | more : ∀ t f rest ts, baseTok t = true → (∀ c ∈ f, fillerC c = true) →
      (∃ c ∈ f, gSep c = true) → Chain rest ts →
      Chain (t ++ (f ++ rest)) (t :: ts)

/-- A lowercase string made of base tokens separated by separator-bearing
filler, with optional leading filler (trailing filler lives inside the
chain). -/
def SepDecomp (l : List Char) (ts : List (List Char)) : Prop :=
  ∃ f₀ rest, (∀ c ∈ f₀, fillerC c = true) ∧ Chain rest ts ∧ l = f₀ ++ rest

/-- `unifySep` passes over a separator-free block. -/
lemma unifySep_nonsep_append {xs : List Char} (ys : List Char)
    (h : ∀ c ∈ xs, pySep c = false) :
    unifySep (xs ++ ys) = xs ++ unifySep ys := by
  induction xs with
  | nil => rfl
  | cons c xs' ih =>
    have hc : pySep c = false := h c (List.mem_cons_self _ _)
    simp only [List.cons_append, unifySep, hc, Bool.false_eq_true, if_false,
      List.append_eq]
    rw [ih (fun d hd => h d (List.mem_cons_of_mem _ hd))]

lemma unifySep_append_of_head {xs ys : List Char}
    (h : ∀ d, ys.head? = some d → pySep d = false) :
    unifySep (xs ++ ys) = unifySep xs ++ unifySep ys := by
  induction xs with
  | nil => simp [unifySep]
  | cons c xs' ih =>
    cases hc : pySep c with
    | false =>
      simp only [List.cons_append, unifySep, hc, Bool.false_eq_true, if_false,
        List.append_eq]
      rw [ih]
    | true =>
      cases xs' with
      | nil =>
        cases ys with
        | nil => simp [unifySep, hc]
        | cons d ys' =>
          have hd : pySep d = false := h d rfl
          simp [unifySep, hc, hd]
      | cons d xs'' =>
        cases hd : pySep d with
        | true =>
          simp only [List.cons_append, unifySep, hc, hd, if_true, List.append_eq] at ih ⊢
          exact ih
        | false =>
          simp only [List.cons_append, unifySep, hc, hd, Bool.false_eq_true,
            if_false, if_true, List.cons.injEq, true_and, List.append_eq] at ih ⊢
          exact ih

/-- On filler input `unifySep` produces only bars and whitespace. -/
lemma unifySep_all_filler {f : List Char} (hf : ∀ c ∈ f, fillerC c = true) :
    ∀ c ∈ unifySep f, c = '|' ∨ c.isWhitespace = true := by
  induction f with
  | nil => simp [unifySep]
  | cons c f' ih =>
    have hcf : fillerC c = true := hf c (List.mem_cons_self _ _)
    have hf' : ∀ d ∈ f', fillerC d = true := fun d hd => hf d (List.mem_cons_of_mem _ hd)
    cases hc : pySep c with
    | false =>
      have hcw : c = '|' ∨ c.isWhitespace = true := by
        unfold fillerC gSep at hcf
        rw [hc] at hcf
        simp only [Bool.false_or, Bool.or_eq_true, decide_eq_true_eq] at hcf
        exact hcf
      intro d hd
      simp only [unifySep, hc, Bool.false_eq_true, if_false, List.mem_cons] at hd
      rcases hd with rfl | hd
      · exact hcw
      · exact ih hf' d hd
    | true =>
      cases f' with
      | nil =>
        intro d hd
        simp only [unifySep, hc, if_true, List.mem_singleton] at hd
        exact Or.inl hd
      | cons e f'' =>
        cases he : pySep e with
        | true =>
          intro d hd
          simp only [unifySep, hc, he, if_true] at hd
          refine ih hf' d ?_
          simpa only [unifySep, he, if_true] using hd
        | false =>
          intro d hd
          simp only [unifySep, hc, he, Bool.false_eq_true, if_false, if_true,
            List.mem_cons] at hd
          rcases hd with rfl | hd
          · exact Or.inl rfl
          · refine ih hf' d ?_
            simp only [unifySep, he, Bool.false_eq_true, if_false, List.mem_cons]
            exact hd

/-- On filler with at least one separator, `unifySep` emits a bar. -/
lemma bar_mem_unifySep {f : List Char} (hf : ∀ c ∈ f, fillerC c = true)
    (hex : ∃ c ∈ f, gSep c = true) : '|' ∈ unifySep f := by
  induction f with
  | nil => simp at hex
  | cons c f' ih =>
    have hf' : ∀ d ∈ f', fillerC d = true := fun d hd => hf d (List.mem_cons_of_mem _ hd)
    cases hc : pySep c with
    | true =>
      cases f' with
      | nil => simp [unifySep, hc]
      | cons e f'' =>
        cases he : pySep e with
        | true =>
          simp only [unifySep, hc, he, if_true]
          have h2 := ih hf' ⟨e, List.mem_cons_self _ _, by simp [gSep, he]⟩
          simpa only [unifySep, he, if_true] using h2
        | false =>
          simp [unifySep, hc, he]
    | false =>
      cases hgc : gSep c with
      | true =>
        have hbar : c = '|' := by
          unfold gSep at hgc
          rw [hc] at hgc
          simpa using hgc
        subst hbar
        simp [unifySep, hc]
      | false =>
        obtain ⟨x, hx, hgx⟩ := hex
        rcases List.mem_cons.mp hx with rfl | hx'
        · rw [hgx] at hgc
          cases hgc
        · simp only [unifySep, hc, Bool.false_eq_true, if_false, List.mem_cons]
          exact Or.inr (ih hf' ⟨x, hx', hgx⟩)

/-- Whitespace never survives the `[^a-z|]` filter. -/
lemma ws_not_keep {c : Char} (h : c.isWhitespace = true) : keepChar c = false := by
  unfold Char.isWhitespace at h
  simp only [Bool.or_eq_true, decide_eq_true_eq] at h
  rcases h with ((rfl | rfl) | rfl) | rfl <;> decide

/-- `cleanup` distributes over an append whose right part does not start
with a separator. -/
lemma cleanup_append_of_head {xs ys : List Char}
    (h : ∀ d, ys.head? = some d → pySep d = false) :
    cleanup (xs ++ ys) = cleanup xs ++ cleanup ys := by
  unfold cleanup
  rw [unifySep_append_of_head h, List.filter_append, List.filter_append]

/-- `cleanup` passes over a base token, which consists of lowercase
letters only. -/
lemma cleanup_token_append {t : List Char} (ys : List Char)
    (htok : baseTok t = true) :
    cleanup (t ++ ys) = t ++ cleanup ys := by
  have hns : ∀ c ∈ t, pySep c = false := by
    rcases baseTok_cases htok with rfl | rfl | rfl <;> decide
  have hsp : t.filter (fun c => c != ' ') = t := by
    rcases baseTok_cases htok with rfl | rfl | rfl <;> decide
  have hkp : t.filter keepChar = t := by
    rcases baseTok_cases htok with rfl | rfl | rfl <;> decide
  unfold cleanup
  rw [unifySep_nonsep_append ys hns, List.filter_append, List.filter_append, hsp, hkp]

/-- `cleanup` turns filler into a run of bars, non-empty when the filler
contains a separator. -/
lemma cleanup_filler_bars {f : List Char} (hf : ∀ c ∈ f, fillerC c = true) :
    ∃ m, cleanup f = List.replicate m '|' ∧
      ((∃ c ∈ f, gSep c = true) → 1 ≤ m) := by
  have hall := unifySep_all_filler hf
  have hbars : ∀ c ∈ cleanup f, c = '|' := by
    intro c hc
    unfold cleanup at hc
    have hc1 := List.mem_of_mem_filter hc
    have hkeep := List.of_mem_filter hc
    have hc2 := List.mem_of_mem_filter hc1
    rcases hall c hc2 with rfl | hws
    · rfl
    · rw [ws_not_keep hws] at hkeep
      cases hkeep
  refine ⟨(cleanup f).length, List.eq_replicate_of_mem hbars, ?_⟩
  intro hex
  have hbar := bar_mem_unifySep hf hex
  have hmem : '|' ∈ cleanup f := by
    unfold cleanup
    exact List.mem_filter.mpr ⟨List.mem_filter.mpr ⟨hbar, by decide⟩, by decide⟩
  have := List.length_pos_of_mem hmem
  omega

/-- `splitBar` never returns the empty list of parts. -/
lemma splitBar_ne_nil (l : List Char) : splitBar l ≠ [] := by
  cases l with
  | nil => simp [splitBar]
  | cons c rest =>
    simp only [splitBar]
    split <;> simp

/-- Splitting a run of bars yields one more empty part than bars. -/
lemma splitBar_replicate (m : Nat) :
    splitBar (List.replicate m '|') = List.replicate (m + 1) [] := by
  induction m with
  | zero => rfl
  | succ m ih =>
    rw [List.replicate_succ, List.replicate_succ]
    simp only [splitBar, ih, if_true, reduceIte]

/-- Splitting after a leading run of bars prepends empty parts. -/
lemma splitBar_bars_append (m : Nat) (ys : List Char) :
    splitBar (List.replicate m '|' ++ ys) = List.replicate m [] ++ splitBar ys := by
  induction m with
  | zero => rfl
  | succ m ih =>
    rw [List.replicate_succ, List.replicate_succ]
    simp only [List.cons_append, splitBar, List.append_eq, ih, reduceIte]

/-- Splitting a bar-free block followed by anything merges the block into
the first part. -/
lemma splitBar_nobar_append {xs : List Char} (ys : List Char) (h : '|' ∉ xs) :
    splitBar (xs ++ ys) = (xs ++ (splitBar ys).headD []) :: (splitBar ys).tail := by
  induction xs with
  | nil =>
    cases hsp : splitBar ys with
    | nil => exact absurd hsp (splitBar_ne_nil ys)
    | cons p ps => simp [hsp]
  | cons c xs' ih =>
    have hc : c ≠ '|' := fun hb => h (hb ▸ List.mem_cons_self _ _)
    have ih' := ih (fun hm => h (List.mem_cons_of_mem _ hm))
    simp only [List.cons_append, splitBar, List.append_eq, if_neg hc]
    rw [ih']
    simp

/-- A chain starts with a token letter, never a separator. -/
lemma chain_head {l : List Char} {ts : List (List Char)} (h : Chain l ts) :
    ∀ d, l.head? = some d → pySep d = false := by
  cases h with
  | one t f htok hf =>
    rcases baseTok_cases htok with rfl | rfl | rfl <;>
      (intro d hd
       simp only [vataL, pittaL, kaphaL, List.cons_append, List.head?_cons,
         Option.some.injEq] at hd
       subst hd
       decide)
  | more t f rest ts' htok hf hex hch =>
    rcases baseTok_cases htok with rfl | rfl | rfl <;>
      (intro d hd
       simp only [vataL, pittaL, kaphaL, List.cons_append, List.head?_cons,
         Option.some.injEq] at hd
       subst hd
       decide)

/-- All tokens of a chain are base tokens. -/
lemma chain_toks {l : List Char} {ts : List (List Char)} (h : Chain l ts) :
    ∀ t ∈ ts, baseTok t = true := by
  induction h with
  | one t f htok hf =>
    intro x hx
    simp only [List.mem_singleton] at hx
    subst hx
    exact htok
  | more t f rest ts' htok hf hex hch ih =>
    intro x hx
    rcases List.mem_cons.mp hx with rfl | hx'
    · exact htok
    · exact ih x hx'

/-- A chain carries at least one token. -/
lemma chain_ts_ne_nil {l : List Char} {ts : List (List Char)} (h : Chain l ts) :
    ts ≠ [] := by
  cases h <;> simp

/-- Filter on empty parts drops a block of empties. -/
lemma filter_replicate_nil (m : Nat) :
    (List.replicate m ([] : List Char)).filter (fun p => !p.isEmpty) = [] := by
  induction m with
  | zero => rfl
  | succ m ih => rw [List.replicate_succ]; simp [ih]

/-- The non-empty parts of the split of a cleaned chain are exactly its
tokens. -/
lemma chain_parts {l : List Char} {ts : List (List Char)} (h : Chain l ts) :
    (splitBar (cleanup l)).filter (fun p => !p.isEmpty) = ts := by
  induction h with
  | one t f htok hf =>
    have hbar : '|' ∉ t := by
      rcases baseTok_cases htok with rfl | rfl | rfl <;> decide
    have hne : (!t.isEmpty) = true := by
      rcases baseTok_cases htok with rfl | rfl | rfl <;> decide
    obtain ⟨m, hm, _⟩ := cleanup_filler_bars hf
    rw [cleanup_token_append f htok, hm, splitBar_nobar_append _ hbar,
      splitBar_replicate, List.replicate_succ]
    simp only [List.headD_cons, List.tail_cons, List.append_nil,
      List.filter_cons, hne, if_true, filter_replicate_nil]
  | more t f rest ts' htok hf hex hch ih =>
    have hbar : '|' ∉ t := by
      rcases baseTok_cases htok with rfl | rfl | rfl <;> decide
    have hne : (!t.isEmpty) = true := by
      rcases baseTok_cases htok with rfl | rfl | rfl <;> decide
    obtain ⟨m, hm, hge⟩ := cleanup_filler_bars hf
    obtain ⟨m', rfl⟩ : ∃ m', m = m' + 1 := ⟨m - 1, by have := hge hex; omega⟩
    rw [cleanup_token_append _ htok, cleanup_append_of_head (chain_head hch),
      hm, splitBar_nobar_append _ hbar, splitBar_bars_append,
      List.replicate_succ]
    simp only [List.cons_append, List.headD_cons, List.tail_cons,
      List.append_nil, List.filter_cons, hne, if_true, List.filter_append,
      filter_replicate_nil, List.nil_append, ih]

/-- A decomposed string's computed parts are exactly its tokens. -/
lemma parts_of_decomp {l : List Char} {ts : List (List Char)}
    (h : SepDecomp l ts) : partsOf l = ts := by
  obtain ⟨f₀, rest, hf₀, hch, rfl⟩ := h
  unfold partsOf
  obtain ⟨m, hm, _⟩ := cleanup_filler_bars hf₀
  rw [cleanup_append_of_head (chain_head hch), hm, splitBar_bars_append,
    List.filter_append, filter_replicate_nil, List.nil_append, chain_parts hch]
  refine List.filter_eq_self.mpr ?_
  intro t ht
  exact chain_toks hch t ht

/-- Matching a starting block pulls all its characters from the text. -/
lemma startsL_sub {l q : List Char} (h : startsL l q = true) :
    ∀ c ∈ q, c ∈ l := by
  induction q generalizing l with
  | nil => simp
  | cons d q' ih =>
    cases l with
    | nil => simp [startsL] at h
    | cons c l' =>
      simp only [startsL, Bool.and_eq_true, decide_eq_true_eq] at h
      obtain ⟨rfl, h2⟩ := h
      intro x hx
      rcases List.mem_cons.mp hx with rfl | hx'
      · exact List.mem_cons_self _ _
      · exact List.mem_cons_of_mem _ (ih h2 x hx')

/-- A substring occurrence pulls all its characters from the text. -/
lemma containsL_sub {l q : List Char} (h : containsL l q = true) :
    ∀ c ∈ q, c ∈ l := by
  induction l with
  | nil =>
    simp only [containsL, List.isEmpty_iff] at h
    subst h
    simp
  | cons c rest ih =>
    simp only [containsL, Bool.or_eq_true] at h
    rcases h with h | h
    · exact startsL_sub h
    · exact fun x hx => List.mem_cons_of_mem _ (ih h x hx)

/-- The whole-word pattern contains the letter `r`. -/
lemma triAt_r {l : List Char} (h : triAt l = true) : 'r' ∈ l := by
  rcases l with _ | ⟨c1, _ | ⟨c2, _ | ⟨c3, rest⟩⟩⟩
  · simp [triAt] at h
  · simp [triAt] at h
  · simp [triAt] at h
  · simp only [triAt, Bool.and_eq_true, decide_eq_true_eq] at h
    obtain ⟨⟨⟨rfl, rfl⟩, rfl⟩, _⟩ := h
    simp

/-- A regex hit for the whole-word pattern needs an `r` in the text. -/
lemma triSearch_r {l : List Char} : ∀ {prev : Option Char},
    triSearch prev l = true → 'r' ∈ l := by
  induction l with
  | nil =>
    intro prev h
    simp [triSearch] at h
  | cons c rest ih =>
    intro prev h
    simp only [triSearch, Bool.or_eq_true, Bool.and_eq_true] at h
    rcases h with ⟨_, hat⟩ | h
    · exact triAt_r hat
    · exact List.mem_cons_of_mem _ (ih h)

/-- Without the letter `r` the tridosha short-circuit cannot fire. -/
lemma triCheck_false_of_no_r {l : List Char} (h : 'r' ∉ l) :
    triCheck l = false := by
  refine Bool.eq_false_iff.mpr ?_
  intro htc
  unfold triCheck at htc
  simp only [Bool.or_eq_true] at htc
  rcases htc with (hc | hc) | hc
  · exact h (containsL_sub hc 'r' (by decide))
  · exact h (containsL_sub hc 'r' (by decide))
  · exact h (triSearch_r hc)

/-- A decomposed string never contains the letter `r`. -/
lemma decomp_no_r {l : List Char} {ts : List (List Char)}
    (h : SepDecomp l ts) : 'r' ∉ l := by
  obtain ⟨f₀, rest, hf₀, hch, rfl⟩ := h
  intro hmem
  rcases List.mem_append.mp hmem with hm | hm
  · have := hf₀ 'r' hm
    simp [fillerC, gSep, pySep] at this
  · clear hmem hf₀
    induction hch with
    | one t f htok hf =>
      rcases List.mem_append.mp hm with hm' | hm'
      · rcases baseTok_cases htok with rfl | rfl | rfl <;> simp [vataL, pittaL, kaphaL] at hm'
      · have := hf 'r' hm'
        simp [fillerC, gSep, pySep] at this
    | more t f rest' ts' htok hf hex hch' ih =>
      rcases List.mem_append.mp hm with hm' | hm'
      · rcases baseTok_cases htok with rfl | rfl | rfl <;> simp [vataL, pittaL, kaphaL] at hm'
      · rcases List.mem_append.mp hm' with hm'' | hm''
        · have := hf 'r' hm''
          simp [fillerC, gSep, pySep] at this
        · exact ih hm''

/-- C3 (amended): a lowercase trimmed string made of base tokens in which
consecutive tokens are separated by filler containing at least one
separator character from `;,+/|` (with optional whitespace, and optional
leading/trailing filler) normalizes to the surviving tokens deduplicated
and reordered into the canonical order `vata, pitta, kapha`, joined by
`|` — except that when all three base tokens are present the result is
`tridosha`.  (Whitespace alone does not separate tokens: it is deleted,
so adjacent tokens merge — see the counterexample.) -/
theorem c3_separator_tokens (s : String) (ts : List (List Char))
    (hdec : SepDecomp (strTrimLower s.data) ts) :
    (vataL ∈ ts ∧ pittaL ∈ ts ∧ kaphaL ∈ ts →
      normalize_dosha (some s) = some "tridosha") ∧
    (¬(vataL ∈ ts ∧ pittaL ∈ ts ∧ kaphaL ∈ ts) →
      normalize_dosha (some s) =
        some (String.mk (List.intercalate ['|']
          (ORDERL.filter (fun d => decide (d ∈ ts)))))) := by
  have hparts : partsOf (strTrimLower s.data) = ts := parts_of_decomp hdec
  have htri : triCheck (strTrimLower s.data) = false :=
    triCheck_false_of_no_r (decomp_no_r hdec)
  have hne : ts ≠ [] := by
    obtain ⟨f₀, rest, _, hch, _⟩ := hdec
    exact chain_ts_ne_nil hch
  have hemp : ts.isEmpty = false := by
    cases ts with
    | nil => exact absurd rfl hne
    | cons a b => rfl
  constructor
  · rintro ⟨h1, h2, h3⟩
    rw [normalize_some, htri]
    simp only [Bool.false_eq_true, if_false, hparts, hemp]
    rw [if_pos]
    simp [presentOf_eq, h1, h2, h3]
  · intro hnot
    have hlen : ¬ 3 ≤ (presentOf ts).length := by
      intro hcontra
      by_cases hv : vataL ∈ ts <;> by_cases hp : pittaL ∈ ts <;>
        by_cases hk : kaphaL ∈ ts
      · exact hnot ⟨hv, hp, hk⟩
      all_goals simp [presentOf_eq, hv, hp, hk] at hcontra
    rw [normalize_some, htri]
    simp only [Bool.false_eq_true, if_false, hparts, hemp]
    rw [if_neg hlen]
    rfl

/-- C3 counterexample: `"vata pitta"` is composed solely of base tokens
and whitespace, yet normalizes to absent rather than `vata|pitta` — the
space is deleted and the tokens merge into the unrecognized `vatapitta`. -/
theorem c3_whitespace_counterexample :
    normalize_dosha (some "vata pitta") = none := by decide

/-- Witness for C3 at the specification's own example:
`"Pitta, Vata"` normalizes to `vata|pitta`. -/
theorem c3_separator_tokens_witness :
    normalize_dosha (some "Pitta, Vata") = some "vata|pitta" := by
  have hdec : SepDecomp (strTrimLower ("Pitta, Vata").data) [pittaL, vataL] :=
    ⟨[], pittaL ++ ([',', ' '] ++ (vataL ++ [])), by simp,
     Chain.more pittaL [',', ' '] (vataL ++ []) [vataL] (by decide)
       (by decide) ⟨',', by decide, by decide⟩
       (Chain.one vataL [] (by decide) (by decide)),
     by decide⟩
  have h := (c3_separator_tokens "Pitta, Vata" [pittaL, vataL] hdec).2 (by decide)
  rw [h]
  decide
